import Mathlib

/-!
# Verification of the sietch-faces identity-resolution core

A shallow embedding of the matching, clustering and claim/merge logic of the
sietch-faces backend, together with theorems checking the natural-language
specification against it.

Embedding conventions:
* floating-point scores and embedding vectors are modelled over `ℚ`;
* database rows (`Person`, `Face`) are lists of records, the primary-key
  uniqueness of a table is an explicit `Nodup` hypothesis where needed;
* SQLAlchemy `query(...).first()` followed by a row mutation is modelled as
  `List.find?` plus an update of the first matching element;
* Python `try`/`except` blocks that fall back to a default value are modelled
  as total functions returning that default on the exceptional branch.
-/

namespace SietchFaces

/-- Update the first element of a list satisfying `pred`, mirroring a mutation
of the single row returned by `query(...).first()`. -/
def updateFirst (pred : α → Bool) (f : α → α) : List α → List α
  | [] => []
  | a :: as => if pred a then f a :: as else a :: updateFirst pred f as

/-- Remove the first element of a list satisfying `pred`, mirroring
`db.delete(row)` for the single row returned by `query(...).first()`. -/
def removeFirst (pred : α → Bool) : List α → List α
  | [] => []
  | a :: as => if pred a then as else a :: removeFirst pred as

/-- Maximum of a list of scores; `np.max` on the nonempty arrays the services
build (the `[]` case is never reached by callers). -/
def listMax : List ℚ → ℚ
  | [] => 0
  | a :: as => as.foldl max a

/-- Arithmetic mean of a list of scores, `np.mean`. -/
def listMean (l : List ℚ) : ℚ := l.sum / l.length

/-- Dot product of two embedding vectors, `np.dot` on equal-length inputs. -/
def dotList : List ℚ → List ℚ → ℚ
  | a :: as, b :: bs => a * b + dotList as bs
  | _, _ => 0

/-- Sum of squares of a vector's entries; a vector is L2-normalized when this
equals 1. -/
def sumSq (l : List ℚ) : ℚ := (l.map (fun x => x * x)).sum

/-- `FaceRecognizer.calculate_similarity` (src/app/face_recognition.py).
`np.dot` raises on a dimension mismatch and on an absent (`None`) input; the
surrounding `try`/`except` turns every such failure into the sentinel `0.0`. -/
def calculate_similarity (e1 e2 : Option (List ℚ)) : ℚ :=
  match e1, e2 with
  | some v1, some v2 => if v1.length = v2.length then dotList v1 v2 else 0
  | _, _ => 0

theorem sumSq_nonneg (l : List ℚ) : 0 ≤ sumSq l := by
  induction l with
  | nil => simp [sumSq]
  | cons x xs ih =>
    simp only [sumSq, List.map_cons, List.sum_cons] at *
    nlinarith [mul_self_nonneg x]

theorem dotList_sq_le (v1 v2 : List ℚ) :
    dotList v1 v2 * dotList v1 v2 ≤ sumSq v1 * sumSq v2 := by
  induction v1 generalizing v2 with
  | nil => simp [dotList, sumSq]
  | cons a as ih =>
    cases v2 with
    | nil => simp [dotList, sumSq]
    | cons b bs =>
      have hA : 0 ≤ sumSq as := sumSq_nonneg as
      have hB : 0 ≤ sumSq bs := sumSq_nonneg bs
      have hd := ih bs
      simp only [dotList, sumSq, List.map_cons, List.sum_cons]
      have key : (a * b + dotList as bs) * (a * b + dotList as bs) ≤
          (a * a + sumSq as) * (b * b + sumSq bs) := by
        rcases eq_or_lt_of_le hB with hB0 | hBpos
        · have hd0 : dotList as bs * dotList as bs = 0 := by
            have h1 : dotList as bs * dotList as bs ≤ 0 := by
              calc dotList as bs * dotList as bs ≤ sumSq as * sumSq bs := hd
                _ = 0 := by rw [← hB0]; ring
            exact le_antisymm h1 (mul_self_nonneg _)
          have hdz : dotList as bs = 0 := by
            exact mul_self_eq_zero.mp hd0
          rw [hdz, ← hB0]
          nlinarith [mul_self_nonneg b, hA, mul_self_nonneg (a * b)]
        · nlinarith [sq_nonneg (b * dotList as bs - a * sumSq bs),
                     mul_nonneg (sub_nonneg.mpr hd) (mul_self_nonneg b),
                     hBpos, hA, mul_self_nonneg a, mul_self_nonneg b]
      simpa [sumSq] using key

/-! ## Data model (src/app/models.py) -/

/-- A row of the `persons` table: identifier, optional display name, claimed
flag, optional owning user (`user_id` is a string UUID in the source). -/
structure PersonRec where
  pid : Nat
  name : Option String
  is_claimed : Bool
  user_id : Option String
deriving DecidableEq, Repr

/-- A row of the `faces` table, restricted to the fields the identity-resolution
core reads: identifier, nullable Person foreign key, stored embedding. -/
structure FaceRec where
  fid : Nat
  person_id : Option Nat
  embedding : List ℚ
deriving DecidableEq, Repr

/-- A `users` table row, restricted to the fields the services read:
identifier, username, nullable primary-Person foreign key. -/
structure UserRec where
  uid : String
  username : String
  person_id : Option Nat
deriving DecidableEq, Repr

/-- The shared mutable state: the `persons` and `faces` tables. -/
structure DB where
  persons : List PersonRec
  faces : List FaceRec
deriving DecidableEq, Repr

/-- `len(person.faces)`: the faces whose `person_id` foreign key points at
person `i`. -/
def faceCount (db : DB) (i : Nat) : Nat :=
  db.faces.countP (fun f => decide (f.person_id = some i))

/-! ## Claim/Merge Service (src/app/services/claim_service.py) -/

/-- The row mutation performed when a person is claimed: set the flag, point
`user_id` at the claiming user, overwrite the name with the username. -/
def claimUpd (user : UserRec) (p : PersonRec) : PersonRec :=
  { p with is_claimed := true, user_id := some user.uid, name := some user.username }

/-- The `query(Person).filter(id == i, is_claimed == False)` predicate. -/
def unclaimedWithId (i : Nat) (p : PersonRec) : Bool :=
  decide (p.pid = i ∧ p.is_claimed = false)

/-- One iteration of the `claim_persons` loop: look up an unclaimed person
with the given id, and if found claim it, bump the claimed counter and add its
face count to the photo total. -/
def claimStep (user : UserRec) (acc : DB × Nat × Nat) (i : Nat) : DB × Nat × Nat :=
  match acc.1.persons.find? (unclaimedWithId i) with
  | none => acc
  | some person =>
    ({ acc.1 with persons := updateFirst (unclaimedWithId i) (claimUpd user) acc.1.persons },
     acc.2.1 + 1, acc.2.2 + faceCount acc.1 person.pid)

/-- The result dict of `ClaimService.claim_persons`. -/
structure ClaimResult where
  claimed_count : Nat
  person_ids : List Nat
  total_photos : Nat
deriving DecidableEq, Repr

/-- `ClaimService.claim_persons`: claim each currently-unclaimed person in the
input list; afterwards, if the user has no primary person and at least one
claim succeeded, point the primary at the first id of the input list. The
returned `person_ids` is the input list truncated to `claimed_count`. -/
def claim_persons (db : DB) (user : UserRec) (person_ids : List Nat) :
    DB × UserRec × ClaimResult :=
  let r := person_ids.foldl (claimStep user) (db, 0, 0)
  let user' := if user.person_id = none ∧ 0 < r.2.1 then
      { user with person_id := person_ids.head? } else user
  (r.1, user', ⟨r.2.1, person_ids.take r.2.1, r.2.2⟩)

/-- The value returned by `ClaimService.merge_persons`: either the error dict
for a missing target or the success dict. -/
inductive MergeResult where
  | error (msg : String)
  | ok (merged_count total_faces_moved target_person_id : Nat)
deriving DecidableEq, Repr

/-- One iteration of the `merge_persons` loop: skip the target itself and
missing sources; otherwise bulk-reassign the source's faces to the target
(counting the updated rows) and delete the source person row. -/
def mergeStep (target : Nat) (acc : DB × Nat × Nat) (s : Nat) : DB × Nat × Nat :=
  if s = target then acc
  else
    match acc.1.persons.find? (fun p => decide (p.pid = s)) with
    | none => acc
    | some _ =>
      let moved := acc.1.faces.countP (fun f => decide (f.person_id = some s))
      ({ persons := removeFirst (fun p => decide (p.pid = s)) acc.1.persons,
         faces := acc.1.faces.map (fun f =>
           if f.person_id = some s then { f with person_id := some target } else f) },
       acc.2.1 + 1, acc.2.2 + moved)

/-- `ClaimService.merge_persons`: error out (mutating nothing) when the target
does not exist, else fold the merge step over the source ids. -/
def merge_persons (db : DB) (target_person_id : Nat) (source_person_ids : List Nat) :
    DB × MergeResult :=
  match db.persons.find? (fun p => decide (p.pid = target_person_id)) with
  | none => (db, .error "Target person not found")
  | some _ =>
    let r := source_person_ids.foldl (mergeStep target_person_id) (db, 0, 0)
    (r.1, .ok r.2.1 r.2.2 target_person_id)

/-- `ClaimService.transfer_person_to_user`: claim a single currently-unclaimed
person for the user; set the user's primary person only when it is unset. -/
def transfer_person_to_user (db : DB) (person_id : Nat) (user : UserRec) :
    DB × UserRec × Option PersonRec :=
  match db.persons.find? (unclaimedWithId person_id) with
  | none => (db, user, none)
  | some person =>
    let db' := { db with
      persons := updateFirst (unclaimedWithId person_id) (claimUpd user) db.persons }
    let user' := if user.person_id = none then
        { user with person_id := some person_id } else user
    (db', user', some (claimUpd user person))

/-- `ClaimService.unclaim_person`: reverse a claim, but only when the person's
`user_id` equals the requesting user's id; clear the user's primary pointer if
it pointed at this person. -/
def unclaim_person (db : DB) (person_id : Nat) (user : UserRec) :
    DB × UserRec × Bool :=
  match db.persons.find? (fun p => decide (p.pid = person_id ∧ p.user_id = some user.uid)) with
  | none => (db, user, false)
  | some _ =>
    let db' := { db with
      persons := updateFirst
        (fun p => decide (p.pid = person_id ∧ p.user_id = some user.uid))
        (fun p => { p with is_claimed := false, user_id := none }) db.persons }
    let user' := if user.person_id = some person_id then
        { user with person_id := none } else user
    (db', user', true)

/-! ## Face-Matching Service (src/app/services/face_matching.py) -/

/-- `query(Face).filter(Face.person_id == user.person_id).all()`: the faces of
person `pid`. -/
def personFaces (db : DB) (pid : Nat) : List FaceRec :=
  db.faces.filter (fun f => decide (f.person_id = some pid))

/-- The `similarities` list built by `auto_associate_to_user`: the similarity
of the query embedding against each face of person `pid`. -/
def similarityScores (db : DB) (pid : Nat) (embedding : List ℚ) : List ℚ :=
  (personFaces db pid).map (fun f => calculate_similarity (some embedding) (some f.embedding))

/-- `FaceMatchingService.auto_associate_to_user`: bail out when the user has
no primary person row or that person has no faces; otherwise compare the new
embedding against every face of the primary person and associate when the max
or the mean similarity meets the threshold. -/
def auto_associate_to_user (db : DB) (user : UserRec) (embedding : List ℚ)
    (threshold : ℚ) : Option PersonRec :=
  match user.person_id with
  | none => none
  | some pid =>
    match db.persons.find? (fun p => decide (p.pid = pid)) with
    | none => none
    | some person =>
      if (personFaces db pid).isEmpty then none
      else
        let similarities := similarityScores db pid embedding
        if threshold ≤ listMax similarities ∨ threshold ≤ listMean similarities then
          some person
        else none

/-- Variant of `auto_associate_to_user` whose acceptance test uses only the
maximum similarity, used to state that the mean branch of the source's
disjunction is redundant. -/
def auto_associate_max_only (db : DB) (user : UserRec) (embedding : List ℚ)
    (threshold : ℚ) : Option PersonRec :=
  match user.person_id with
  | none => none
  | some pid =>
    match db.persons.find? (fun p => decide (p.pid = pid)) with
    | none => none
    | some person =>
      if (personFaces db pid).isEmpty then none
      else
        if threshold ≤ listMax (similarityScores db pid embedding) then some person
        else none

/-! ## Clustering Engine (src/app/clustering.py and the /cluster endpoint of
src/app/routes/core.py) -/

/-- `clusters[label].append(face_id)` on the dict built by `cluster_faces`,
modelled on an association list: extend the label's member list when the label
is already a key, otherwise add a new singleton cluster. -/
def addToCluster (clusters : List (Int × List Nat)) (label : Int) (fid : Nat) :
    List (Int × List Nat) :=
  match clusters with
  | [] => [(label, [fid])]
  | (k, ms) :: rest =>
    if k = label then (k, ms ++ [fid]) :: rest
    else (k, ms) :: addToCluster rest label fid

/-- The result-organizing loop of `FaceClustering.cluster_faces`: the input is
`zip(face_ids, labels)` where `labels` comes from DBSCAN's `fit_predict`;
points labelled `-1` (noise) are skipped, the rest are grouped by label. -/
def cluster_faces (pairs : List (Nat × Int)) : List (Int × List Nat) :=
  pairs.foldl (fun cs p => if p.2 = -1 then cs else addToCluster cs p.2 p.1) []

/-- The `clustered_face_ids` set built by the `/cluster` endpoint: the union of
all cluster member lists. -/
def clusteredFaceIds (clusters : List (Int × List Nat)) : List Nat :=
  (clusters.map Prod.snd).flatten

/-- The endpoint's `noise_face_ids = all_face_ids - clustered_face_ids`:
input ids not assigned to any cluster, reported separately in the response. -/
def noise_face_ids (ids : List Nat) (clusters : List (Int × List Nat)) : List Nat :=
  ids.filter (fun i => decide (i ∉ clusteredFaceIds clusters))

/-! ## Supporting lemmas -/

theorem le_foldl_max (b : ℚ) (l : List ℚ) : b ≤ l.foldl max b := by
  induction l generalizing b with
  | nil => exact le_rfl
  | cons c cs ih => exact le_trans (le_max_left b c) (ih (max b c))

theorem mem_le_foldl_max (x : ℚ) : ∀ (l : List ℚ) (b : ℚ), x ∈ l → x ≤ l.foldl max b
  | c :: cs, b, hx => by
    rcases List.mem_cons.mp hx with h | h
    · subst h
      exact le_trans (le_max_right b x) (le_foldl_max _ _)
    · exact mem_le_foldl_max x cs (max b c) h

theorem mem_le_listMax (l : List ℚ) (x : ℚ) (hx : x ∈ l) : x ≤ listMax l := by
  cases l with
  | nil => cases hx
  | cons a as =>
    rcases List.mem_cons.mp hx with h | h
    · subst h
      exact le_foldl_max _ _
    · exact mem_le_foldl_max _ _ _ h

theorem listMean_le_listMax (l : List ℚ) (h : l ≠ []) : listMean l ≤ listMax l := by
  have hlen : 0 < (l.length : ℚ) := by
    have := List.length_pos.mpr h
    exact_mod_cast this
  rw [listMean, div_le_iff₀ hlen]
  have hsum : l.sum ≤ l.length • listMax l :=
    List.sum_le_card_nsmul l (listMax l) (fun x hx => mem_le_listMax l x hx)
  calc l.sum ≤ l.length • listMax l := hsum
    _ = listMax l * l.length := by
        rw [nsmul_eq_mul]
        ring

/-! ## Claim theorems -/

/-- C7: `calculate_similarity` never raises across the system boundary: on
normalized vectors of equal dimension it returns their dot product, which lies
in `[-1, 1]`; on a dimension mismatch or an absent input it returns the
defined non-match value `0` instead of propagating an exception. -/
theorem c7_similarity_never_raises (v1 v2 : List ℚ)
    (hlen : v1.length = v2.length) (h1 : sumSq v1 = 1) (h2 : sumSq v2 = 1) :
    calculate_similarity (some v1) (some v2) = dotList v1 v2 ∧
    (-1 ≤ dotList v1 v2 ∧ dotList v1 v2 ≤ 1) ∧
    (∀ w1 w2 : List ℚ, w1.length ≠ w2.length →
      calculate_similarity (some w1) (some w2) = 0) ∧
    (∀ e : Option (List ℚ),
      calculate_similarity none e = 0 ∧ calculate_similarity e none = 0) := by
  have hsq : dotList v1 v2 * dotList v1 v2 ≤ 1 := by
    have := dotList_sq_le v1 v2
    rw [h1, h2] at this
    simpa using this
  refine ⟨by simp [calculate_similarity, hlen], ⟨?_, ?_⟩, ?_, ?_⟩
  · nlinarith [sq_nonneg (dotList v1 v2 + 1)]
  · nlinarith [sq_nonneg (dotList v1 v2 - 1)]
  · intro w1 w2 hw
    simp [calculate_similarity, hw]
  · intro e
    cases e <;> simp [calculate_similarity]

theorem c7_witness :
    ([(3 : ℚ)/5, 4/5].length = [(1 : ℚ), 0].length) ∧
    sumSq [(3 : ℚ)/5, 4/5] = 1 ∧ sumSq [(1 : ℚ), 0] = 1 ∧
    (calculate_similarity (some [(3 : ℚ)/5, 4/5]) (some [(1 : ℚ), 0]) =
        dotList [(3 : ℚ)/5, 4/5] [(1 : ℚ), 0] ∧
      (-1 ≤ dotList [(3 : ℚ)/5, 4/5] [(1 : ℚ), 0] ∧
        dotList [(3 : ℚ)/5, 4/5] [(1 : ℚ), 0] ≤ 1) ∧
      (∀ w1 w2 : List ℚ, w1.length ≠ w2.length →
        calculate_similarity (some w1) (some w2) = 0) ∧
      (∀ e : Option (List ℚ),
        calculate_similarity none e = 0 ∧ calculate_similarity e none = 0)) :=
  ⟨rfl, by norm_num [sumSq], by norm_num [sumSq],
    c7_similarity_never_raises _ _ rfl (by norm_num [sumSq]) (by norm_num [sumSq])⟩

/-- C10: in `auto_associate_to_user` the acceptance disjunction
`max ≥ threshold or mean ≥ threshold` is equivalent to `max ≥ threshold`
alone, because the maximum of the non-empty similarity list dominates its
mean; the mean branch never accepts an embedding the max branch rejects. -/
theorem c10_mean_branch_redundant (db : DB) (user : UserRec) (embedding : List ℚ)
    (threshold : ℚ) :
    auto_associate_to_user db user embedding threshold =
      auto_associate_max_only db user embedding threshold := by
  unfold auto_associate_to_user auto_associate_max_only
  cases user.person_id with
  | none => rfl
  | some pid =>
    cases hf : db.persons.find? (fun p => decide (p.pid = pid)) with
    | none => simp [hf]
    | some person =>
      cases he : (personFaces db pid).isEmpty with
      | true => simp [hf, he]
      | false =>
        have hpf : personFaces db pid ≠ [] := by
          intro hcon
          rw [hcon] at he
          simp at he
        have hne : similarityScores db pid embedding ≠ [] := by
          simpa [similarityScores] using hpf
        have hiff : (threshold ≤ listMax (similarityScores db pid embedding) ∨
            threshold ≤ listMean (similarityScores db pid embedding)) ↔
            threshold ≤ listMax (similarityScores db pid embedding) :=
          or_iff_left_of_imp (fun h => le_trans h (listMean_le_listMax _ hne))
        simp [hf, he, hiff]

/-- C6: `auto_associate_to_user` returns the user's primary person exactly
when the user has a primary person row with at least one face and the max or
the mean similarity of the embedding against those faces meets the
threshold. -/
theorem c6_auto_associate_characterization (db : DB) (user : UserRec)
    (embedding : List ℚ) (threshold : ℚ) (q : PersonRec) :
    auto_associate_to_user db user embedding threshold = some q ↔
      ∃ pid, user.person_id = some pid ∧
        db.persons.find? (fun p => decide (p.pid = pid)) = some q ∧
        personFaces db pid ≠ [] ∧
        (threshold ≤ listMax (similarityScores db pid embedding) ∨
         threshold ≤ listMean (similarityScores db pid embedding)) := by
  unfold auto_associate_to_user
  cases hu : user.person_id with
  | none => simp
  | some pid =>
    cases hf : db.persons.find? (fun p => decide (p.pid = pid)) with
    | none => simp [hf]
    | some person =>
      cases he : (personFaces db pid).isEmpty with
      | true =>
        have hempty : personFaces db pid = [] := by
          simpa [List.isEmpty_iff] using he
        simp [hf, he, hempty]
      | false =>
        have hpf : personFaces db pid ≠ [] := by
          intro hcon
          rw [hcon] at he
          simp at he
        by_cases hc : threshold ≤ listMax (similarityScores db pid embedding) ∨
            threshold ≤ listMean (similarityScores db pid embedding)
        · simp only [hf, he, Bool.false_eq_true, if_false, if_pos hc,
            Option.some.injEq, exists_eq_left']
          simp [hpf, hc]
        · simp only [hf, he, Bool.false_eq_true, if_false, if_neg hc,
            Option.some.injEq, exists_eq_left']
          simp [hc]

/-- C3: `merge_persons` with a missing target returns the error dict and
performs zero mutations: the database (persons and faces alike) is returned
unchanged. -/
theorem c3_merge_missing_target (db : DB) (target : Nat) (sources : List Nat)
    (h : ∀ p ∈ db.persons, p.pid ≠ target) :
    merge_persons db target sources = (db, MergeResult.error "Target person not found") := by
  have hf : db.persons.find? (fun p => decide (p.pid = target)) = none :=
    List.find?_eq_none.mpr (fun p hp => by simp [h p hp])
  simp [merge_persons, hf]

theorem c3_witness :
    (∀ p ∈ (DB.mk [⟨1, none, false, none⟩] [⟨10, some 1, [1]⟩]).persons, p.pid ≠ 99) ∧
    merge_persons (DB.mk [⟨1, none, false, none⟩] [⟨10, some 1, [1]⟩]) 99 [1, 2] =
      (DB.mk [⟨1, none, false, none⟩] [⟨10, some 1, [1]⟩],
        MergeResult.error "Target person not found") :=
  ⟨by decide, c3_merge_missing_target _ _ _ (by decide)⟩

/-- C9: the `person_ids` field of the `claim_persons` result is the input list
truncated to `claimed_count`, not the list of ids actually claimed; in the
concrete run below person 1 is already claimed (and is skipped) while person 2
is claimed, yet the result names person 1 and omits person 2. -/
theorem c9_returned_ids_are_truncated_input :
    (∀ (db : DB) (user : UserRec) (ids : List Nat),
      (claim_persons db user ids).2.2.person_ids =
        ids.take (claim_persons db user ids).2.2.claimed_count) ∧
    (claim_persons (DB.mk [⟨1, none, true, some "u9"⟩, ⟨2, none, false, none⟩] [])
        (UserRec.mk "u1" "alice" none) [1, 2]).2.2 =
      ClaimResult.mk 1 [1] 0 ∧
    (claim_persons (DB.mk [⟨1, none, true, some "u9"⟩, ⟨2, none, false, none⟩] [])
        (UserRec.mk "u1" "alice" none) [1, 2]).1.persons =
      [⟨1, none, true, some "u9"⟩, ⟨2, some "alice", true, some "u1"⟩] := by
  refine ⟨fun db user ids => rfl, ?_, ?_⟩ <;> decide

/-- C2: when the user has no primary person and at least one claim succeeded,
`claim_persons` sets the primary to the head of the input list (whether or not
that particular claim succeeded); when the user already has a primary person,
or no claim succeeded, the user record is unchanged. -/
theorem c2_primary_person_assignment (db : DB) (user : UserRec) (ids : List Nat) :
    (user.person_id = none → 0 < (claim_persons db user ids).2.2.claimed_count →
      (claim_persons db user ids).2.1.person_id = ids.head?) ∧
    (user.person_id = none → (claim_persons db user ids).2.2.claimed_count = 0 →
      (claim_persons db user ids).2.1 = user) ∧
    (user.person_id ≠ none → (claim_persons db user ids).2.1 = user) := by
  have hsplit : (claim_persons db user ids).2.1 =
      (if user.person_id = none ∧ 0 < (ids.foldl (claimStep user) (db, 0, 0)).2.1 then
        { user with person_id := ids.head? } else user) := rfl
  have hcount : (claim_persons db user ids).2.2.claimed_count =
      (ids.foldl (claimStep user) (db, 0, 0)).2.1 := rfl
  refine ⟨?_, ?_, ?_⟩
  · intro h1 h2
    rw [hcount] at h2
    rw [hsplit, if_pos ⟨h1, h2⟩]
  · intro h1 h2
    rw [hcount] at h2
    rw [hsplit, if_neg]
    rintro ⟨-, hpos⟩
    omega
  · intro h1
    rw [hsplit, if_neg]
    rintro ⟨hn, -⟩
    exact h1 hn

theorem c2_witness :
    (UserRec.mk "u1" "alice" none).person_id = none ∧
    0 < (claim_persons (DB.mk [⟨1, none, true, some "u9"⟩, ⟨2, none, false, none⟩] [])
        (UserRec.mk "u1" "alice" none) [1, 2]).2.2.claimed_count ∧
    (claim_persons (DB.mk [⟨1, none, true, some "u9"⟩, ⟨2, none, false, none⟩] [])
        (UserRec.mk "u1" "alice" none) [1, 2]).2.1.person_id = [1, 2].head? :=
  ⟨rfl, by decide,
    (c2_primary_person_assignment _ _ _).1 rfl (by decide)⟩

theorem mem_updateFirst {α : Type _} {pred : α → Bool} {f : α → α} :
    ∀ {l : List α} {x : α}, x ∈ updateFirst pred f l → x ∈ l ∨ ∃ y, y ∈ l ∧ x = f y := by
  intro l
  induction l with
  | nil => intro x hx; cases hx
  | cons a as ih =>
    intro x hx
    by_cases hp : pred a
    · rw [updateFirst, if_pos hp] at hx
      rcases List.mem_cons.mp hx with h | h
      · exact Or.inr ⟨a, List.mem_cons_self a as, h⟩
      · exact Or.inl (List.mem_cons_of_mem a h)
    · rw [updateFirst, if_neg hp] at hx
      rcases List.mem_cons.mp hx with h | h
      · exact Or.inl (h ▸ List.mem_cons_self a as)
      · rcases ih h with h' | ⟨y, hy, hxy⟩
        · exact Or.inl (List.mem_cons_of_mem a h')
        · exact Or.inr ⟨y, List.mem_cons_of_mem a hy, hxy⟩

theorem mem_removeFirst {α : Type _} {pred : α → Bool} :
    ∀ {l : List α} {x : α}, x ∈ removeFirst pred l → x ∈ l := by
  intro l
  induction l with
  | nil => intro x hx; cases hx
  | cons a as ih =>
    intro x hx
    by_cases hp : pred a
    · rw [removeFirst, if_pos hp] at hx
      exact List.mem_cons_of_mem a hx
    · rw [removeFirst, if_neg hp] at hx
      rcases List.mem_cons.mp hx with h | h
      · exact h ▸ List.mem_cons_self a as
      · exact List.mem_cons_of_mem a (ih h)

theorem foldl_preserve {β γ : Type _} {P : β → Prop} (step : β → γ → β)
    (hstep : ∀ b c, P b → P (step b c)) :
    ∀ (l : List γ) (b : β), P b → P (l.foldl step b)
  | [], _, hb => hb
  | c :: cs, b, hb => foldl_preserve step hstep cs (step b c) (hstep b c hb)

/-- The invariant of the Claim/Merge Service: a person is flagged claimed
exactly when its user reference is non-null. -/
def Good (p : PersonRec) : Prop := p.is_claimed = true ↔ p.user_id ≠ none

/-- `Good` holds of every person row in the database. -/
def ClaimInv (db : DB) : Prop := ∀ p ∈ db.persons, Good p

theorem good_claimUpd (user : UserRec) (p : PersonRec) : Good (claimUpd user p) := by
  simp [Good, claimUpd]

theorem claimStep_inv (user : UserRec) (acc : DB × Nat × Nat) (i : Nat)
    (h : ClaimInv acc.1) : ClaimInv (claimStep user acc i).1 := by
  rcases acc with ⟨db', c, t⟩
  unfold claimStep
  cases hf : db'.persons.find? (unclaimedWithId i) with
  | none => exact h
  | some person =>
    intro p hp
    rcases mem_updateFirst hp with h' | ⟨y, hy, rfl⟩
    · exact h p h'
    · exact good_claimUpd user y

theorem mergeStep_inv (target : Nat) (acc : DB × Nat × Nat) (s : Nat)
    (h : ClaimInv acc.1) : ClaimInv (mergeStep target acc s).1 := by
  rcases acc with ⟨db', m, tot⟩
  unfold mergeStep
  by_cases hs : s = target
  · rw [if_pos hs]
    exact h
  · rw [if_neg hs]
    cases hf : db'.persons.find? (fun p => decide (p.pid = s)) with
    | none => exact h
    | some person =>
      intro p hp
      exact h p (mem_removeFirst hp)

/-- C8: every Claim/Merge Service operation preserves the invariant that a
person's `is_claimed` flag is true exactly when its user reference is
non-null. -/
theorem c8_claim_flag_invariant (db : DB) (user : UserRec) (ids : List Nat)
    (pid target : Nat) (sources : List Nat) (h : ClaimInv db) :
    ClaimInv (claim_persons db user ids).1 ∧
    ClaimInv (unclaim_person db pid user).1 ∧
    ClaimInv (transfer_person_to_user db pid user).1 ∧
    ClaimInv (merge_persons db target sources).1 := by
  refine ⟨?_, ?_, ?_, ?_⟩
  · have : (claim_persons db user ids).1 = (ids.foldl (claimStep user) (db, 0, 0)).1 := rfl
    rw [this]
    exact foldl_preserve (claimStep user) (claimStep_inv user) ids (db, 0, 0) h
  · unfold unclaim_person
    cases hf : db.persons.find? (fun p => decide (p.pid = pid ∧ p.user_id = some user.uid)) with
    | none => exact h
    | some person =>
      intro p hp
      rcases mem_updateFirst hp with h' | ⟨y, hy, rfl⟩
      · exact h p h'
      · simp [Good]
  · unfold transfer_person_to_user
    cases hf : db.persons.find? (unclaimedWithId pid) with
    | none => exact h
    | some person =>
      intro p hp
      rcases mem_updateFirst hp with h' | ⟨y, hy, rfl⟩
      · exact h p h'
      · exact good_claimUpd user y
  · unfold merge_persons
    cases hf : db.persons.find? (fun p => decide (p.pid = target)) with
    | none => exact h
    | some person =>
      exact foldl_preserve (mergeStep target) (mergeStep_inv target) sources (db, 0, 0) h

theorem c8_witness :
    ClaimInv (DB.mk [⟨1, none, true, some "u9"⟩, ⟨2, none, false, none⟩] [⟨10, some 2, [1]⟩]) ∧
    (ClaimInv (claim_persons (DB.mk [⟨1, none, true, some "u9"⟩, ⟨2, none, false, none⟩]
        [⟨10, some 2, [1]⟩]) (UserRec.mk "u1" "alice" none) [2]).1 ∧
      ClaimInv (unclaim_person (DB.mk [⟨1, none, true, some "u9"⟩, ⟨2, none, false, none⟩]
        [⟨10, some 2, [1]⟩]) 1 (UserRec.mk "u1" "alice" none)).1 ∧
      ClaimInv (transfer_person_to_user (DB.mk [⟨1, none, true, some "u9"⟩, ⟨2, none, false, none⟩]
        [⟨10, some 2, [1]⟩]) 1 (UserRec.mk "u1" "alice" none)).1 ∧
      ClaimInv (merge_persons (DB.mk [⟨1, none, true, some "u9"⟩, ⟨2, none, false, none⟩]
        [⟨10, some 2, [1]⟩]) 1 [2]).1) :=
  ⟨by simp only [ClaimInv, Good]; decide,
    c8_claim_flag_invariant _ (UserRec.mk "u1" "alice" none) [2] 1 1 [2]
      (by simp only [ClaimInv, Good]; decide)⟩

theorem clusteredFaceIds_cons (k : Int) (ms : List Nat) (rest : List (Int × List Nat)) :
    clusteredFaceIds ((k, ms) :: rest) = ms ++ clusteredFaceIds rest := by
  simp [clusteredFaceIds]

theorem addToCluster_perm (cs : List (Int × List Nat)) (label : Int) (fid : Nat) :
    (clusteredFaceIds (addToCluster cs label fid)).Perm (fid :: clusteredFaceIds cs) := by
  induction cs with
  | nil => simp [addToCluster, clusteredFaceIds]
  | cons c rest ih =>
    rcases c with ⟨k, ms⟩
    by_cases hk : k = label
    · have e : addToCluster ((k, ms) :: rest) label fid = (k, ms ++ [fid]) :: rest := by
        simp [addToCluster, hk]
      rw [e, clusteredFaceIds_cons, clusteredFaceIds_cons]
      have h1 : ((ms ++ [fid]) ++ clusteredFaceIds rest).Perm
          (([fid] ++ ms) ++ clusteredFaceIds rest) :=
        List.perm_append_comm.append_right _
      have h2 : (([fid] ++ ms) ++ clusteredFaceIds rest) =
          fid :: (ms ++ clusteredFaceIds rest) := by simp
      rw [h2] at h1
      exact h1
    · have e : addToCluster ((k, ms) :: rest) label fid =
          (k, ms) :: addToCluster rest label fid := by
        simp [addToCluster, hk]
      rw [e, clusteredFaceIds_cons, clusteredFaceIds_cons]
      exact (ih.append_left ms).trans List.perm_middle

theorem cluster_fold_perm :
    ∀ (pairs : List (Nat × Int)) (cs : List (Int × List Nat)),
    (clusteredFaceIds (pairs.foldl
        (fun cs p => if p.2 = -1 then cs else addToCluster cs p.2 p.1) cs)).Perm
      (clusteredFaceIds cs ++ (pairs.filter (fun p => decide (p.2 ≠ -1))).map Prod.fst)
  | [], cs => by simp
  | p :: rest, cs => by
    by_cases hp : p.2 = -1
    · have hfilter : (decide (p.2 ≠ -1)) = false := by simp [hp]
      simp only [List.foldl_cons, if_pos hp, List.filter_cons, hfilter,
        Bool.false_eq_true, if_false]
      exact cluster_fold_perm rest cs
    · have hfilter : (decide (p.2 ≠ -1)) = true := by simp [hp]
      simp only [List.foldl_cons, if_neg hp, List.filter_cons, hfilter, if_true,
        List.map_cons]
      have h1 := cluster_fold_perm rest (addToCluster cs p.2 p.1)
      have h2 : (clusteredFaceIds (addToCluster cs p.2 p.1) ++
          (rest.filter (fun p => decide (p.2 ≠ -1))).map Prod.fst).Perm
          ((p.1 :: clusteredFaceIds cs) ++
            (rest.filter (fun p => decide (p.2 ≠ -1))).map Prod.fst) :=
        (addToCluster_perm cs p.2 p.1).append_right _
      have h3 : (clusteredFaceIds cs ++
          (p.1 :: (rest.filter (fun p => decide (p.2 ≠ -1))).map Prod.fst)).Perm
          (p.1 :: (clusteredFaceIds cs ++
            (rest.filter (fun p => decide (p.2 ≠ -1))).map Prod.fst)) :=
        List.perm_middle
      refine (h1.trans h2).trans ?_
      have h4 : (p.1 :: clusteredFaceIds cs) ++
          (rest.filter (fun p => decide (p.2 ≠ -1))).map Prod.fst =
          p.1 :: (clusteredFaceIds cs ++
            (rest.filter (fun p => decide (p.2 ≠ -1))).map Prod.fst) := by simp
      rw [h4]
      exact h3.symm

theorem cluster_faces_members (pairs : List (Nat × Int)) :
    (clusteredFaceIds (cluster_faces pairs)).Perm
      ((pairs.filter (fun p => decide (p.2 ≠ -1))).map Prod.fst) := by
  simpa [clusteredFaceIds] using cluster_fold_perm pairs []

theorem addToCluster_no_noise_key (cs : List (Int × List Nat)) (label : Int) (fid : Nat)
    (hl : label ≠ -1) (hcs : ∀ c ∈ cs, c.1 ≠ -1) :
    ∀ c ∈ addToCluster cs label fid, c.1 ≠ -1 := by
  induction cs with
  | nil =>
    intro c hc
    simp only [addToCluster, List.mem_singleton] at hc
    subst hc
    exact hl
  | cons c0 rest ih =>
    rcases c0 with ⟨k, ms⟩
    intro c hc
    by_cases hk : k = label
    · rw [addToCluster, if_pos hk] at hc
      rcases List.mem_cons.mp hc with h | h
      · subst h
        simpa [hk] using hl
      · exact hcs c (List.mem_cons_of_mem _ h)
    · rw [addToCluster, if_neg hk] at hc
      rcases List.mem_cons.mp hc with h | h
      · subst h
        exact hcs _ (List.mem_cons_self _ _)
      · exact ih (fun c' hc' => hcs c' (List.mem_cons_of_mem _ hc')) c h

theorem cluster_fold_no_noise :
    ∀ (pairs : List (Nat × Int)) (cs : List (Int × List Nat)),
    (∀ c ∈ cs, c.1 ≠ -1) →
    ∀ c ∈ pairs.foldl (fun cs p => if p.2 = -1 then cs else addToCluster cs p.2 p.1) cs,
      c.1 ≠ -1
  | [], _, hcs => hcs
  | p :: rest, cs, hcs => by
    by_cases hp : p.2 = -1
    · simp only [List.foldl_cons, if_pos hp]
      exact cluster_fold_no_noise rest cs hcs
    · simp only [List.foldl_cons, if_neg hp]
      exact cluster_fold_no_noise rest _ (addToCluster_no_noise_key cs p.2 p.1 hp hcs)

/-- C1: for every input id/label assignment, the clustering output together
with the endpoint's separately reported noise list partitions the input: no
cluster carries the noise label `-1`, and the clustered ids plus the noise ids
are exactly the input ids with no overlaps (the concatenation has no
duplicates). -/
theorem c1_cluster_noise_partition (ids : List Nat) (labels : List Int)
    (hn : ids.Nodup) (hl : ids.length ≤ labels.length) :
    (∀ c ∈ cluster_faces (ids.zip labels), c.1 ≠ -1) ∧
    (∀ i, i ∈ clusteredFaceIds (cluster_faces (ids.zip labels)) ++
        noise_face_ids ids (cluster_faces (ids.zip labels)) ↔ i ∈ ids) ∧
    (clusteredFaceIds (cluster_faces (ids.zip labels)) ++
      noise_face_ids ids (cluster_faces (ids.zip labels))).Nodup := by
  have hperm := cluster_faces_members (ids.zip labels)
  have hsl : List.Sublist (((ids.zip labels).filter (fun p => decide (p.2 ≠ -1))).map Prod.fst)
      ids := by
    have h1 : List.Sublist ((ids.zip labels).filter (fun p => decide (p.2 ≠ -1)))
        (ids.zip labels) := List.filter_sublist _
    have h2 := h1.map Prod.fst
    rwa [List.map_fst_zip ids labels hl] at h2
  have hmem_sub : ∀ i ∈ clusteredFaceIds (cluster_faces (ids.zip labels)), i ∈ ids := by
    intro i hi
    exact hsl.subset (hperm.mem_iff.mp hi)
  have hnoise_mem : ∀ i, i ∈ noise_face_ids ids (cluster_faces (ids.zip labels)) ↔
      i ∈ ids ∧ i ∉ clusteredFaceIds (cluster_faces (ids.zip labels)) := by
    intro i
    simp [noise_face_ids, List.mem_filter]
  refine ⟨cluster_fold_no_noise (ids.zip labels) [] (by intro c hc; cases hc), ?_, ?_⟩
  · intro i
    rw [List.mem_append, hnoise_mem]
    constructor
    · rintro (h | ⟨h, -⟩)
      · exact hmem_sub i h
      · exact h
    · intro h
      by_cases hc : i ∈ clusteredFaceIds (cluster_faces (ids.zip labels))
      · exact Or.inl hc
      · exact Or.inr ⟨h, hc⟩
  · rw [List.nodup_append]
    refine ⟨hperm.nodup_iff.mpr (hsl.nodup hn), List.Nodup.filter _ hn, ?_⟩
    intro i hi hnoise
    exact ((hnoise_mem i).mp hnoise).2 hi

theorem c1_witness :
    ([1, 2, 3, 4] : List Nat).Nodup ∧
    ([1, 2, 3, 4] : List Nat).length ≤ ([0, -1, 0, 1] : List Int).length ∧
    ((∀ c ∈ cluster_faces (([1, 2, 3, 4] : List Nat).zip ([0, -1, 0, 1] : List Int)),
        c.1 ≠ -1) ∧
      (∀ i, i ∈ clusteredFaceIds (cluster_faces (([1, 2, 3, 4] : List Nat).zip
          ([0, -1, 0, 1] : List Int))) ++
          noise_face_ids [1, 2, 3, 4] (cluster_faces (([1, 2, 3, 4] : List Nat).zip
            ([0, -1, 0, 1] : List Int))) ↔ i ∈ ([1, 2, 3, 4] : List Nat)) ∧
      (clusteredFaceIds (cluster_faces (([1, 2, 3, 4] : List Nat).zip
          ([0, -1, 0, 1] : List Int))) ++
        noise_face_ids [1, 2, 3, 4] (cluster_faces (([1, 2, 3, 4] : List Nat).zip
          ([0, -1, 0, 1] : List Int)))).Nodup) :=
  ⟨by decide, by decide,
    c1_cluster_noise_partition [1, 2, 3, 4] [0, -1, 0, 1] (by decide) (by decide)⟩

theorem updateFirst_map_key {α κ : Type _} (key : α → κ) (pred : α → Bool) (f : α → α)
    (hf : ∀ a, key (f a) = key a) :
    ∀ l : List α, (updateFirst pred f l).map key = l.map key
  | [] => rfl
  | a :: as => by
    by_cases hp : pred a
    · rw [updateFirst, if_pos hp, List.map_cons, List.map_cons, hf]
    · rw [updateFirst, if_neg hp, List.map_cons, List.map_cons,
        updateFirst_map_key key pred f hf as]

theorem filter_key_le_one {α : Type _} (key : α → Nat) (pred : α → Bool) (k : Nat)
    (hk : ∀ a, pred a = true → key a = k) :
    ∀ l : List α, (l.map key).Nodup → (l.filter pred).length ≤ 1
  | [], _ => by simp
  | a :: as, h => by
    rw [List.map_cons, List.nodup_cons] at h
    by_cases hp : pred a
    · rw [List.filter_cons_of_pos hp]
      have hnil : as.filter pred = [] := by
        rcases hfe : as.filter pred with _ | ⟨b, bs⟩
        · rfl
        · exfalso
          have hb : b ∈ as.filter pred := by rw [hfe]; exact List.mem_cons_self b bs
          rw [List.mem_filter] at hb
          apply h.1
          have hab : key a = key b := by rw [hk a hp, hk b hb.2]
          rw [hab]
          exact List.mem_map_of_mem key hb.1
      rw [hnil]
      simp
    · rw [List.filter_cons_of_neg hp]
      exact filter_key_le_one key pred k hk as h.2

theorem updateFirst_eq_map {α : Type _} (pred : α → Bool) (f : α → α) :
    ∀ l : List α, (l.filter pred).length ≤ 1 →
      updateFirst pred f l = l.map (fun a => if pred a then f a else a)
  | [], _ => rfl
  | a :: as, h => by
    by_cases hp : pred a
    · rw [List.filter_cons_of_pos hp] at h
      simp only [List.length_cons] at h
      have hnil : as.filter pred = [] := List.length_eq_zero.mp (by omega)
      rw [updateFirst, if_pos hp, List.map_cons, if_pos hp]
      congr 1
      have hcongr : ∀ b ∈ as, (if pred b then f b else b) = b := by
        intro b hb
        rw [if_neg (List.filter_eq_nil_iff.mp hnil b hb)]
      rw [List.map_congr_left hcongr]
      simp
    · rw [List.filter_cons_of_neg hp] at h
      rw [updateFirst, if_neg hp, List.map_cons, if_neg hp,
        updateFirst_eq_map pred f as h]

theorem removeFirst_sublist {α : Type _} (pred : α → Bool) :
    ∀ l : List α, List.Sublist (removeFirst pred l) l
  | [] => List.Sublist.refl _
  | a :: as => by
    by_cases hp : pred a
    · rw [removeFirst, if_pos hp]
      exact List.sublist_cons_self a as
    · rw [removeFirst, if_neg hp]
      exact List.Sublist.cons₂ a (removeFirst_sublist pred as)

theorem removeFirst_eq_filter {α : Type _} (pred : α → Bool) :
    ∀ l : List α, (l.filter pred).length ≤ 1 →
      removeFirst pred l = l.filter (fun a => !pred a)
  | [], _ => rfl
  | a :: as, h => by
    by_cases hp : pred a
    · rw [List.filter_cons_of_pos hp] at h
      simp only [List.length_cons] at h
      have hnil : as.filter pred = [] := List.length_eq_zero.mp (by omega)
      rw [removeFirst, if_pos hp, List.filter_cons_of_neg (by simp [hp])]
      symm
      apply List.filter_eq_self.mpr
      intro b hb
      simp [List.filter_eq_nil_iff.mp hnil b hb]
    · rw [List.filter_cons_of_neg hp] at h
      rw [removeFirst, if_neg hp, List.filter_cons_of_pos (by simp [hp]),
        removeFirst_eq_filter pred as h]

theorem any_updateFirst {α : Type _} (q pred : α → Bool) (f : α → α)
    (h : ∀ a, q a = true → pred (f a) = pred a) :
    ∀ l : List α, (updateFirst q f l).any pred = l.any pred
  | [] => rfl
  | a :: as => by
    by_cases hq : q a
    · rw [updateFirst, if_pos hq, List.any_cons, List.any_cons, h a hq]
    · rw [updateFirst, if_neg hq, List.any_cons, List.any_cons,
        any_updateFirst q pred f h as]

theorem any_removeFirst {α : Type _} (q pred : α → Bool)
    (h : ∀ a, q a = true → pred a = false) :
    ∀ l : List α, (removeFirst q l).any pred = l.any pred
  | [] => rfl
  | a :: as => by
    by_cases hq : q a
    · rw [removeFirst, if_pos hq, List.any_cons, h a hq]
      simp
    · rw [removeFirst, if_neg hq, List.any_cons, List.any_cons,
        any_removeFirst q pred h as]

/-- Closed form of the `claim_persons` loop over a database whose person ids
are unique and an input id list without duplicates: every person named by the
list that is currently unclaimed gets claimed, everything else is untouched,
and the counters accumulate over exactly the claimed persons. -/
theorem claim_fold_spec (user : UserRec) :
    ∀ (ids : List Nat) (db : DB) (c t : Nat),
    (db.persons.map (fun p => p.pid)).Nodup → ids.Nodup →
    ids.foldl (claimStep user) (db, c, t) =
      (DB.mk (db.persons.map (fun p =>
          if p.pid ∈ ids ∧ p.is_claimed = false then claimUpd user p else p)) db.faces,
       c + ids.countP (fun i => db.persons.any (unclaimedWithId i)),
       t + (ids.map (fun i =>
          if db.persons.any (unclaimedWithId i) then faceCount db i else 0)).sum)
  | [], db, c, t, hdb, hids => by simp
  | i :: rest, db, c, t, hdb, hids => by
    rw [List.nodup_cons] at hids
    obtain ⟨hi_rest, hrest⟩ := hids
    rw [List.foldl_cons]
    cases hfind : db.persons.find? (unclaimedWithId i) with
    | none =>
      have hstep : claimStep user (db, c, t) i = (db, c, t) := by
        simp only [claimStep, hfind]
      rw [hstep, claim_fold_spec user rest db c t hdb hrest]
      have hnone : ∀ p ∈ db.persons, ¬ (unclaimedWithId i p = true) :=
        List.find?_eq_none.mp hfind
      have hany_false : db.persons.any (unclaimedWithId i) = false := by
        rcases hae : db.persons.any (unclaimedWithId i) with _ | _
        · rfl
        · rcases List.any_eq_true.mp hae with ⟨p, hp, hup⟩
          exact absurd hup (hnone p hp)
      have hpers : db.persons.map (fun p =>
          if p.pid ∈ rest ∧ p.is_claimed = false then claimUpd user p else p) =
          db.persons.map (fun p =>
          if p.pid ∈ i :: rest ∧ p.is_claimed = false then claimUpd user p else p) := by
        apply List.map_congr_left
        intro p hp
        by_cases hpid : p.pid = i
        · have hclaimed : p.is_claimed = true := by
            rcases hcl : p.is_claimed with _ | _
            · exact absurd (by simp [unclaimedWithId, hpid, hcl]) (hnone p hp)
            · rfl
          rw [if_neg (fun hc => by rw [hclaimed] at hc; exact Bool.noConfusion hc.2),
            if_neg (fun hc => by rw [hclaimed] at hc; exact Bool.noConfusion hc.2)]
        · by_cases hc2 : p.pid ∈ rest ∧ p.is_claimed = false
          · rw [if_pos hc2, if_pos ⟨List.mem_cons_of_mem _ hc2.1, hc2.2⟩]
          · rw [if_neg hc2, if_neg (fun hcc => hc2
              ⟨(List.mem_cons.mp hcc.1).resolve_left hpid, hcc.2⟩)]
      have hcount : (i :: rest).countP (fun j => db.persons.any (unclaimedWithId j)) =
          rest.countP (fun j => db.persons.any (unclaimedWithId j)) := by
        rw [List.countP_cons]
        simp [hany_false]
      have hsum : ((i :: rest).map (fun j =>
          if db.persons.any (unclaimedWithId j) then faceCount db j else 0)).sum =
          (rest.map (fun j =>
          if db.persons.any (unclaimedWithId j) then faceCount db j else 0)).sum := by
        rw [List.map_cons, List.sum_cons, hany_false]
        simp
      rw [hpers, hcount, hsum]
    | some person =>
      have hup : unclaimedWithId i person = true := List.find?_some hfind
      have hmem : person ∈ db.persons := List.mem_of_find?_eq_some hfind
      have hpid : person.pid = i ∧ person.is_claimed = false := by
        simpa [unclaimedWithId] using hup
      have hstep : claimStep user (db, c, t) i =
          (DB.mk (updateFirst (unclaimedWithId i) (claimUpd user) db.persons) db.faces,
           c + 1, t + faceCount db i) := by
        simp only [claimStep, hfind]
        rw [hpid.1]
      have hkey : ∀ p : PersonRec, (claimUpd user p).pid = p.pid := fun p => rfl
      have hmapkey : ((updateFirst (unclaimedWithId i) (claimUpd user) db.persons).map
          (fun p => p.pid)) = db.persons.map (fun p => p.pid) :=
        updateFirst_map_key _ _ _ hkey db.persons
      have hdb1 : ((DB.mk (updateFirst (unclaimedWithId i) (claimUpd user) db.persons)
          db.faces).persons.map (fun p => p.pid)).Nodup := by
        rw [hmapkey]
        exact hdb
      rw [hstep, claim_fold_spec user rest _ (c + 1) (t + faceCount db i) hdb1 hrest]
      have hle1 : (db.persons.filter (unclaimedWithId i)).length ≤ 1 :=
        filter_key_le_one (fun p => p.pid) (unclaimedWithId i) i
          (fun a ha => (show a.pid = i ∧ a.is_claimed = false by
            simpa [unclaimedWithId] using ha).1) db.persons hdb
      have hupdate : updateFirst (unclaimedWithId i) (claimUpd user) db.persons =
          db.persons.map (fun p => if unclaimedWithId i p then claimUpd user p else p) :=
        updateFirst_eq_map _ _ db.persons hle1
      have hany_true : db.persons.any (unclaimedWithId i) = true :=
        List.any_eq_true.mpr ⟨person, hmem, hup⟩
      have hany_rest : ∀ j ∈ rest,
          (updateFirst (unclaimedWithId i) (claimUpd user) db.persons).any
            (unclaimedWithId j) = db.persons.any (unclaimedWithId j) := by
        intro j hj
        have hij : i ≠ j := fun hij => hi_rest (hij ▸ hj)
        apply any_updateFirst
        intro a ha
        have hai : a.pid = i := (show a.pid = i ∧ a.is_claimed = false by
          simpa [unclaimedWithId] using ha).1
        simp [unclaimedWithId, claimUpd, hai, hij]
      have hpers : (updateFirst (unclaimedWithId i) (claimUpd user) db.persons).map
          (fun p => if p.pid ∈ rest ∧ p.is_claimed = false then claimUpd user p else p) =
          db.persons.map (fun p =>
            if p.pid ∈ i :: rest ∧ p.is_claimed = false then claimUpd user p else p) := by
        rw [hupdate, List.map_map]
        apply List.map_congr_left
        intro p hp
        simp only [Function.comp]
        by_cases hcond : p.pid = i ∧ p.is_claimed = false
        · rw [if_pos (show unclaimedWithId i p = true by simp [unclaimedWithId, hcond.1, hcond.2])]
          rw [if_neg (fun hc => Bool.noConfusion hc.2),
            if_pos ⟨by rw [hcond.1]; exact List.mem_cons_self i rest, hcond.2⟩]
        · rw [if_neg (show ¬ unclaimedWithId i p = true by
            simp only [unclaimedWithId, decide_eq_true_eq]; exact hcond)]
          by_cases hc2 : p.pid ∈ rest ∧ p.is_claimed = false
          · rw [if_pos hc2, if_pos ⟨List.mem_cons_of_mem _ hc2.1, hc2.2⟩]
          · rw [if_neg hc2, if_neg (fun hcc => by
              rcases List.mem_cons.mp hcc.1 with h | h
              · exact hcond ⟨h, hcc.2⟩
              · exact hc2 ⟨h, hcc.2⟩)]
      have hcount : rest.countP (fun j =>
          (updateFirst (unclaimedWithId i) (claimUpd user) db.persons).any
            (unclaimedWithId j)) =
          rest.countP (fun j => db.persons.any (unclaimedWithId j)) :=
        List.countP_congr (fun j hj => by rw [hany_rest j hj])
      have hsum : (rest.map (fun j =>
          if (updateFirst (unclaimedWithId i) (claimUpd user) db.persons).any
            (unclaimedWithId j) then
            faceCount (DB.mk (updateFirst (unclaimedWithId i) (claimUpd user)
              db.persons) db.faces) j
          else 0)).sum =
          (rest.map (fun j =>
          if db.persons.any (unclaimedWithId j) then faceCount db j else 0)).sum := by
        apply congrArg
        apply List.map_congr_left
        intro j hj
        rw [hany_rest j hj]
        rcases hjj : db.persons.any (unclaimedWithId j) with _ | _
        · simp
        · simp only [if_pos rfl]
          rfl
      have hcnt_goal : (i :: rest).countP (fun j => db.persons.any (unclaimedWithId j)) =
          rest.countP (fun j => db.persons.any (unclaimedWithId j)) + 1 := by
        rw [List.countP_cons, hany_true]
        simp
      have hsum_goal : ((i :: rest).map (fun j =>
          if db.persons.any (unclaimedWithId j) then faceCount db j else 0)).sum =
          faceCount db i + (rest.map (fun j =>
          if db.persons.any (unclaimedWithId j) then faceCount db j else 0)).sum := by
        rw [List.map_cons, List.sum_cons, hany_true]
        simp
      rw [hpers, hcount, hsum, hcnt_goal, hsum_goal]
      refine congrArg (Prod.mk _) ?_
      refine congrArg₂ Prod.mk ?_ ?_
      · omega
      · omega

/-- C4: `claim_persons` claims exactly the listed persons that are currently
unclaimed (setting the flag, the user reference and the name) and leaves
already-claimed or missing ids untouched and uncounted; `claimed_count` counts
the claimed persons and `total_photos` sums their face counts. -/
theorem c4_claim_persons_spec (db : DB) (user : UserRec) (ids : List Nat)
    (hdb : (db.persons.map (fun p => p.pid)).Nodup) (hids : ids.Nodup) :
    (claim_persons db user ids).1.persons = db.persons.map (fun p =>
        if p.pid ∈ ids ∧ p.is_claimed = false then claimUpd user p else p) ∧
    (claim_persons db user ids).2.2.claimed_count =
      ids.countP (fun i => db.persons.any (unclaimedWithId i)) ∧
    (claim_persons db user ids).2.2.total_photos =
      (ids.map (fun i =>
        if db.persons.any (unclaimedWithId i) then faceCount db i else 0)).sum := by
  have h := claim_fold_spec user ids db 0 0 hdb hids
  refine ⟨?_, ?_, ?_⟩
  · show (ids.foldl (claimStep user) (db, 0, 0)).1.persons = _
    rw [h]
  · show (ids.foldl (claimStep user) (db, 0, 0)).2.1 = _
    rw [h]
    simp
  · show (ids.foldl (claimStep user) (db, 0, 0)).2.2 = _
    rw [h]
    simp

theorem c4_witness :
    ((DB.mk [⟨1, none, false, none⟩, ⟨2, some "bob", true, some "u9"⟩]
        [⟨10, some 1, [1]⟩, ⟨11, some 1, [1]⟩, ⟨12, some 2, [1]⟩]).persons.map
          (fun p => p.pid)).Nodup ∧
    ([1, 2] : List Nat).Nodup ∧
    ((claim_persons (DB.mk [⟨1, none, false, none⟩, ⟨2, some "bob", true, some "u9"⟩]
        [⟨10, some 1, [1]⟩, ⟨11, some 1, [1]⟩, ⟨12, some 2, [1]⟩])
        (UserRec.mk "u1" "alice" none) [1, 2]).1.persons =
      (DB.mk [⟨1, none, false, none⟩, ⟨2, some "bob", true, some "u9"⟩]
        [⟨10, some 1, [1]⟩, ⟨11, some 1, [1]⟩, ⟨12, some 2, [1]⟩]).persons.map (fun p =>
        if p.pid ∈ ([1, 2] : List Nat) ∧ p.is_claimed = false then
          claimUpd (UserRec.mk "u1" "alice" none) p else p) ∧
    (claim_persons (DB.mk [⟨1, none, false, none⟩, ⟨2, some "bob", true, some "u9"⟩]
        [⟨10, some 1, [1]⟩, ⟨11, some 1, [1]⟩, ⟨12, some 2, [1]⟩])
        (UserRec.mk "u1" "alice" none) [1, 2]).2.2.claimed_count =
      ([1, 2] : List Nat).countP (fun i =>
        (DB.mk [⟨1, none, false, none⟩, ⟨2, some "bob", true, some "u9"⟩]
          [⟨10, some 1, [1]⟩, ⟨11, some 1, [1]⟩, ⟨12, some 2, [1]⟩]).persons.any
            (unclaimedWithId i)) ∧
    (claim_persons (DB.mk [⟨1, none, false, none⟩, ⟨2, some "bob", true, some "u9"⟩]
        [⟨10, some 1, [1]⟩, ⟨11, some 1, [1]⟩, ⟨12, some 2, [1]⟩])
        (UserRec.mk "u1" "alice" none) [1, 2]).2.2.total_photos =
      (([1, 2] : List Nat).map (fun i =>
        if (DB.mk [⟨1, none, false, none⟩, ⟨2, some "bob", true, some "u9"⟩]
          [⟨10, some 1, [1]⟩, ⟨11, some 1, [1]⟩, ⟨12, some 2, [1]⟩]).persons.any
            (unclaimedWithId i) then
          faceCount (DB.mk [⟨1, none, false, none⟩, ⟨2, some "bob", true, some "u9"⟩]
            [⟨10, some 1, [1]⟩, ⟨11, some 1, [1]⟩, ⟨12, some 2, [1]⟩]) i
        else 0)).sum) :=
  ⟨by decide, by decide,
    c4_claim_persons_spec _ (UserRec.mk "u1" "alice" none) [1, 2] (by decide) (by decide)⟩

/-- The faces `merge_persons` reassigns: those whose person reference names a
source id distinct from the target whose person row exists. -/
def sourceMoved (db : DB) (target : Nat) (sources : List Nat) (o : Option Nat) : Bool :=
  match o with
  | none => false
  | some s => decide (s ∈ sources) && decide (s ≠ target) &&
      db.persons.any (fun p => decide (p.pid = s))

theorem countP_disjoint_or {α : Type _} (p q : α → Bool)
    (h : ∀ a, ¬(p a = true ∧ q a = true)) :
    ∀ l : List α, l.countP (fun a => p a || q a) = l.countP p + l.countP q
  | [] => rfl
  | a :: as => by
    have ih := countP_disjoint_or p q h as
    rcases hp : p a with _ | _
    · rcases hq : q a with _ | _
      · simp [List.countP_cons, hp, hq, ih]
      · simp only [List.countP_cons, hp, hq, ih]
        simp
        omega
    · rcases hq : q a with _ | _
      · simp only [List.countP_cons, hp, hq, ih]
        simp
        omega
      · exact absurd ⟨hp, hq⟩ (h a)

/-- Closed form of the `merge_persons` loop (target known to exist, unique
person ids, no duplicate sources): every face of an existing source person
other than the target is repointed at the target, those source rows are
deleted, everything else is untouched, and the counters add up over exactly
the merged sources and moved faces. -/
theorem merge_fold_spec (target : Nat) :
    ∀ (sources : List Nat) (db : DB) (m tot : Nat),
    (db.persons.map (fun p => p.pid)).Nodup → sources.Nodup →
    sources.foldl (mergeStep target) (db, m, tot) =
      (DB.mk
        (db.persons.filter (fun p =>
          !(decide (p.pid ∈ sources) && decide (p.pid ≠ target))))
        (db.faces.map (fun f =>
          if sourceMoved db target sources f.person_id then
            { f with person_id := some target } else f)),
       m + sources.countP (fun s => decide (s ≠ target) &&
          db.persons.any (fun p => decide (p.pid = s))),
       tot + db.faces.countP (fun f => sourceMoved db target sources f.person_id))
  | [], db, m, tot, hdb, hsrc => by
    have hpers : db.persons.filter (fun p =>
        !(decide (p.pid ∈ ([] : List Nat)) && decide (p.pid ≠ target))) = db.persons := by
      apply List.filter_eq_self.mpr
      intro p hp
      simp
    have hfaces : db.faces.map (fun f =>
        if sourceMoved db target [] f.person_id then
          { f with person_id := some target } else f) = db.faces := by
      have hbody : ∀ f ∈ db.faces,
          (if sourceMoved db target [] f.person_id then
            { f with person_id := some target } else f) = f := by
        intro f hf
        cases hfp : f.person_id with
        | none => rw [if_neg (by simp [sourceMoved, hfp])]
        | some s => rw [if_neg (by simp [sourceMoved, hfp])]
      calc db.faces.map (fun f =>
            if sourceMoved db target [] f.person_id then
              { f with person_id := some target } else f) =
          db.faces.map id := List.map_congr_left hbody
        _ = db.faces := List.map_id _
    have hfcount : db.faces.countP (fun f => sourceMoved db target [] f.person_id) = 0 := by
      apply List.countP_eq_zero.mpr
      intro f hf
      cases hfp : f.person_id <;> simp [sourceMoved, hfp]
    rw [List.foldl_nil, hpers, hfaces, hfcount]
    simp
  | s :: rest, db, m, tot, hdb, hsrc => by
    rw [List.nodup_cons] at hsrc
    obtain ⟨hs_rest, hrest⟩ := hsrc
    rw [List.foldl_cons]
    by_cases hst : s = target
    · have hstep : mergeStep target (db, m, tot) s = (db, m, tot) := by
        simp only [mergeStep, if_pos hst]
      rw [hstep, merge_fold_spec target rest db m tot hdb hrest]
      have hpers : db.persons.filter (fun p =>
          !(decide (p.pid ∈ rest) && decide (p.pid ≠ target))) =
          db.persons.filter (fun p =>
          !(decide (p.pid ∈ s :: rest) && decide (p.pid ≠ target))) := by
        apply List.filter_congr
        intro p hp
        by_cases hps : p.pid = s
        · simp [hps, hst]
        · simp [List.mem_cons, hps]
      have hfaces : db.faces.map (fun f =>
          if sourceMoved db target rest f.person_id then
            { f with person_id := some target } else f) =
          db.faces.map (fun f =>
          if sourceMoved db target (s :: rest) f.person_id then
            { f with person_id := some target } else f) := by
        apply List.map_congr_left
        intro f hf
        cases hfp : f.person_id with
        | none => simp [sourceMoved, hfp]
        | some u =>
          by_cases hus : u = s
          · simp [sourceMoved, hfp, hus, hst]
          · simp [sourceMoved, hfp, List.mem_cons, hus]
      have hcount : (s :: rest).countP (fun u => decide (u ≠ target) &&
          db.persons.any (fun p => decide (p.pid = u))) =
          rest.countP (fun u => decide (u ≠ target) &&
          db.persons.any (fun p => decide (p.pid = u))) := by
        rw [List.countP_cons]
        simp [hst]
      have hfcount : db.faces.countP (fun f => sourceMoved db target rest f.person_id) =
          db.faces.countP (fun f => sourceMoved db target (s :: rest) f.person_id) := by
        apply List.countP_congr
        intro f hf
        cases hfp : f.person_id with
        | none => simp [sourceMoved, hfp]
        | some u =>
          by_cases hus : u = s
          · simp [sourceMoved, hfp, hus, hst]
          · simp [sourceMoved, hfp, List.mem_cons, hus]
      rw [hpers, hfaces, hcount, hfcount]
    · cases hfind : db.persons.find? (fun p => decide (p.pid = s)) with
      | none =>
        have hstep : mergeStep target (db, m, tot) s = (db, m, tot) := by
          simp only [mergeStep, if_neg hst, hfind]
        rw [hstep, merge_fold_spec target rest db m tot hdb hrest]
        have hnos : ∀ p ∈ db.persons, p.pid ≠ s := by
          intro p hp hps
          have := List.find?_eq_none.mp hfind p hp
          simp [hps] at this
        have hany_s : db.persons.any (fun p => decide (p.pid = s)) = false := by
          rcases hae : db.persons.any (fun p => decide (p.pid = s)) with _ | _
          · rfl
          · rcases List.any_eq_true.mp hae with ⟨p, hp, hps⟩
            exact absurd (by simpa using hps) (hnos p hp)
        have hpers : db.persons.filter (fun p =>
            !(decide (p.pid ∈ rest) && decide (p.pid ≠ target))) =
            db.persons.filter (fun p =>
            !(decide (p.pid ∈ s :: rest) && decide (p.pid ≠ target))) := by
          apply List.filter_congr
          intro p hp
          simp [List.mem_cons, hnos p hp]
        have hfaces : db.faces.map (fun f =>
            if sourceMoved db target rest f.person_id then
              { f with person_id := some target } else f) =
            db.faces.map (fun f =>
            if sourceMoved db target (s :: rest) f.person_id then
              { f with person_id := some target } else f) := by
          apply List.map_congr_left
          intro f hf
          cases hfp : f.person_id with
          | none => simp [sourceMoved, hfp]
          | some u =>
            by_cases hus : u = s
            · simp [sourceMoved, hfp, hus, hany_s]
            · simp [sourceMoved, hfp, List.mem_cons, hus]
        have hcount : (s :: rest).countP (fun u => decide (u ≠ target) &&
            db.persons.any (fun p => decide (p.pid = u))) =
            rest.countP (fun u => decide (u ≠ target) &&
            db.persons.any (fun p => decide (p.pid = u))) := by
          rw [List.countP_cons]
          simp [hany_s]
        have hfcount : db.faces.countP (fun f => sourceMoved db target rest f.person_id) =
            db.faces.countP (fun f => sourceMoved db target (s :: rest) f.person_id) := by
          apply List.countP_congr
          intro f hf
          cases hfp : f.person_id with
          | none => simp [sourceMoved, hfp]
          | some u =>
            by_cases hus : u = s
            · simp [sourceMoved, hfp, hus, hany_s]
            · simp [sourceMoved, hfp, List.mem_cons, hus]
        rw [hpers, hfaces, hcount, hfcount]
      | some p0 =>
        have hmem0 : p0 ∈ db.persons := List.mem_of_find?_eq_some hfind
        have hp0 : p0.pid = s := by simpa using List.find?_some hfind
        have hany_s : db.persons.any (fun p => decide (p.pid = s)) = true :=
          List.any_eq_true.mpr ⟨p0, hmem0, by simp [hp0]⟩
        have hstep : mergeStep target (db, m, tot) s =
            (DB.mk (removeFirst (fun p => decide (p.pid = s)) db.persons)
              (db.faces.map (fun f =>
                if f.person_id = some s then { f with person_id := some target } else f)),
             m + 1,
             tot + db.faces.countP (fun f => decide (f.person_id = some s))) := by
          simp only [mergeStep, if_neg hst, hfind]
        set db1 := DB.mk (removeFirst (fun p => decide (p.pid = s)) db.persons)
          (db.faces.map (fun f =>
            if f.person_id = some s then { f with person_id := some target } else f))
          with hdb1def
        have hsub : List.Sublist (removeFirst (fun p => decide (p.pid = s)) db.persons)
            db.persons := removeFirst_sublist _ db.persons
        have hdb1 : (db1.persons.map (fun p => p.pid)).Nodup :=
          (hsub.map (fun p => p.pid)).nodup hdb
        rw [hstep, merge_fold_spec target rest db1 (m + 1)
          (tot + db.faces.countP (fun f => decide (f.person_id = some s))) hdb1 hrest]
        have hle1 : (db.persons.filter (fun p => decide (p.pid = s))).length ≤ 1 :=
          filter_key_le_one (fun p => p.pid) _ s (fun a ha => by simpa using ha)
            db.persons hdb
        have hremove : removeFirst (fun p => decide (p.pid = s)) db.persons =
            db.persons.filter (fun p => !decide (p.pid = s)) :=
          removeFirst_eq_filter _ db.persons hle1
        have hany_rest : ∀ u, u ≠ s →
            (removeFirst (fun p => decide (p.pid = s)) db.persons).any
              (fun p => decide (p.pid = u)) =
            db.persons.any (fun p => decide (p.pid = u)) := by
          intro u hus
          apply any_removeFirst
          intro a ha
          have has : a.pid = s := by simpa using ha
          simp [has, Ne.symm hus]
        have hpers : db1.persons.filter (fun p =>
            !(decide (p.pid ∈ rest) && decide (p.pid ≠ target))) =
            db.persons.filter (fun p =>
            !(decide (p.pid ∈ s :: rest) && decide (p.pid ≠ target))) := by
          show (removeFirst (fun p => decide (p.pid = s)) db.persons).filter _ = _
          rw [hremove, List.filter_filter]
          apply List.filter_congr
          intro p hp
          by_cases hps : p.pid = s
          · simp [hps, hst]
          · simp [List.mem_cons, hps]
        have hfaces : db1.faces.map (fun f =>
            if sourceMoved db1 target rest f.person_id then
              { f with person_id := some target } else f) =
            db.faces.map (fun f =>
            if sourceMoved db target (s :: rest) f.person_id then
              { f with person_id := some target } else f) := by
          show (db.faces.map _).map _ = _
          rw [List.map_map]
          apply List.map_congr_left
          intro f hf
          simp only [Function.comp]
          cases hfp : f.person_id with
          | none => simp [sourceMoved, hfp, hdb1def]
          | some u =>
            by_cases hus : u = s
            · subst hus
              simp [sourceMoved, hfp, hdb1def, hany_s, hst, List.mem_cons]
            · simp [sourceMoved, hfp, hdb1def, hus, List.mem_cons, hany_rest u hus]
        have hcount : rest.countP (fun u => decide (u ≠ target) &&
            db1.persons.any (fun p => decide (p.pid = u))) =
            rest.countP (fun u => decide (u ≠ target) &&
            db.persons.any (fun p => decide (p.pid = u))) := by
          apply List.countP_congr
          intro u hu
          have hus : u ≠ s := fun h => hs_rest (h ▸ hu)
          simp [hdb1def, hany_rest u hus]
        have hcnt_goal : (s :: rest).countP (fun u => decide (u ≠ target) &&
            db.persons.any (fun p => decide (p.pid = u))) =
            rest.countP (fun u => decide (u ≠ target) &&
            db.persons.any (fun p => decide (p.pid = u))) + 1 := by
          rw [List.countP_cons]
          simp [hst, hany_s]
        have hfcnt1 : db1.faces.countP (fun f => sourceMoved db1 target rest f.person_id) =
            db.faces.countP (fun f => sourceMoved db target rest f.person_id) := by
          show (db.faces.map _).countP _ = _
          rw [List.countP_map]
          apply List.countP_congr
          intro f hf
          simp only [Function.comp]
          cases hfp : f.person_id with
          | none => simp [sourceMoved, hfp, hdb1def]
          | some u =>
            by_cases hus : u = s
            · subst hus
              simp [sourceMoved, hfp, hdb1def, hs_rest]
            · simp [sourceMoved, hfp, hdb1def, hus, hany_rest u hus]
        have hsplit : db.faces.countP (fun f =>
            sourceMoved db target (s :: rest) f.person_id) =
            db.faces.countP (fun f => decide (f.person_id = some s)) +
            db.faces.countP (fun f => sourceMoved db target rest f.person_id) := by
          have hcongr : db.faces.countP (fun f =>
              sourceMoved db target (s :: rest) f.person_id) =
              db.faces.countP (fun f => decide (f.person_id = some s) ||
                sourceMoved db target rest f.person_id) := by
            apply List.countP_congr
            intro f hf
            cases hfp : f.person_id with
            | none => simp [sourceMoved, hfp]
            | some u =>
              by_cases hus : u = s
              · simp [sourceMoved, hfp, hus, hany_s, hst, List.mem_cons, hs_rest]
              · simp [sourceMoved, hfp, List.mem_cons, hus]
          rw [hcongr]
          apply countP_disjoint_or
          intro f
          rintro ⟨h1, h2⟩
          have hfs : f.person_id = some s := by simpa using h1
          rw [hfs] at h2
          simp [sourceMoved, hs_rest] at h2
        rw [hpers, hfaces, hcount, hfcnt1, hcnt_goal, hsplit]
        refine congrArg (Prod.mk _) ?_
        refine congrArg₂ Prod.mk ?_ ?_
        · omega
        · omega

/-- C5: when the target exists, `merge_persons` repoints every face of each
existing source person (other than the target) at the target, deletes exactly
those source rows (skipping the target id and missing ids), and reports
`total_faces_moved` equal to the number of faces reassigned. -/
theorem c5_merge_persons_spec (db : DB) (target : Nat) (sources : List Nat)
    (hdb : (db.persons.map (fun p => p.pid)).Nodup) (hsrc : sources.Nodup)
    (htgt : ∃ p ∈ db.persons, p.pid = target) :
    (merge_persons db target sources).1.persons =
      db.persons.filter (fun p =>
        !(decide (p.pid ∈ sources) && decide (p.pid ≠ target))) ∧
    (merge_persons db target sources).1.faces =
      db.faces.map (fun f =>
        if sourceMoved db target sources f.person_id then
          { f with person_id := some target } else f) ∧
    (merge_persons db target sources).2 =
      MergeResult.ok
        (sources.countP (fun s => decide (s ≠ target) &&
          db.persons.any (fun p => decide (p.pid = s))))
        (db.faces.countP (fun f => sourceMoved db target sources f.person_id))
        target := by
  obtain ⟨pt, hpt, hptid⟩ := htgt
  cases hf : db.persons.find? (fun p => decide (p.pid = target)) with
  | none =>
    exact absurd (by simp [hptid]) (List.find?_eq_none.mp hf pt hpt)
  | some q =>
    have h := merge_fold_spec target sources db 0 0 hdb hsrc
    have hrun : merge_persons db target sources =
        ((sources.foldl (mergeStep target) (db, 0, 0)).1,
         MergeResult.ok (sources.foldl (mergeStep target) (db, 0, 0)).2.1
           (sources.foldl (mergeStep target) (db, 0, 0)).2.2 target) := by
      simp only [merge_persons, hf]
    rw [hrun, h]
    refine ⟨rfl, rfl, ?_⟩
    simp

theorem c5_witness :
    (((DB.mk [⟨1, some "t", false, none⟩, ⟨2, none, false, none⟩, ⟨3, none, false, none⟩]
        [⟨10, some 1, [1]⟩, ⟨11, some 2, [1]⟩, ⟨12, some 2, [1]⟩, ⟨13, some 2, [1]⟩,
         ⟨14, some 3, [1]⟩, ⟨15, some 3, [1]⟩]).persons.map (fun p => p.pid)).Nodup ∧
    ([2, 3] : List Nat).Nodup ∧
    (∃ p ∈ (DB.mk [⟨1, some "t", false, none⟩, ⟨2, none, false, none⟩,
        ⟨3, none, false, none⟩]
        [⟨10, some 1, [1]⟩, ⟨11, some 2, [1]⟩, ⟨12, some 2, [1]⟩, ⟨13, some 2, [1]⟩,
         ⟨14, some 3, [1]⟩, ⟨15, some 3, [1]⟩]).persons, p.pid = 1) ∧
    ((merge_persons (DB.mk [⟨1, some "t", false, none⟩, ⟨2, none, false, none⟩,
        ⟨3, none, false, none⟩]
        [⟨10, some 1, [1]⟩, ⟨11, some 2, [1]⟩, ⟨12, some 2, [1]⟩, ⟨13, some 2, [1]⟩,
         ⟨14, some 3, [1]⟩, ⟨15, some 3, [1]⟩]) 1 [2, 3]).2 =
      MergeResult.ok 2 5 1 ∧
    faceCount (merge_persons (DB.mk [⟨1, some "t", false, none⟩, ⟨2, none, false, none⟩,
        ⟨3, none, false, none⟩]
        [⟨10, some 1, [1]⟩, ⟨11, some 2, [1]⟩, ⟨12, some 2, [1]⟩, ⟨13, some 2, [1]⟩,
         ⟨14, some 3, [1]⟩, ⟨15, some 3, [1]⟩]) 1 [2, 3]).1 1 = 6 ∧
    ((merge_persons (DB.mk [⟨1, some "t", false, none⟩, ⟨2, none, false, none⟩,
        ⟨3, none, false, none⟩]
        [⟨10, some 1, [1]⟩, ⟨11, some 2, [1]⟩, ⟨12, some 2, [1]⟩, ⟨13, some 2, [1]⟩,
         ⟨14, some 3, [1]⟩, ⟨15, some 3, [1]⟩]) 1 [2, 3]).1.persons.map
        (fun p => p.pid) = [1]) ∧
    ((merge_persons (DB.mk [⟨1, some "t", false, none⟩, ⟨2, none, false, none⟩,
        ⟨3, none, false, none⟩]
        [⟨10, some 1, [1]⟩, ⟨11, some 2, [1]⟩, ⟨12, some 2, [1]⟩, ⟨13, some 2, [1]⟩,
         ⟨14, some 3, [1]⟩, ⟨15, some 3, [1]⟩]) 1 [2, 3]).1.persons =
      (DB.mk [⟨1, some "t", false, none⟩, ⟨2, none, false, none⟩,
        ⟨3, none, false, none⟩]
        [⟨10, some 1, [1]⟩, ⟨11, some 2, [1]⟩, ⟨12, some 2, [1]⟩, ⟨13, some 2, [1]⟩,
         ⟨14, some 3, [1]⟩, ⟨15, some 3, [1]⟩]).persons.filter (fun p =>
        !(decide (p.pid ∈ ([2, 3] : List Nat)) && decide (p.pid ≠ 1)))))) :=
  ⟨by decide, by decide, ⟨⟨1, some "t", false, none⟩, by decide⟩,
    by decide, by decide, by decide,
    (c5_merge_persons_spec _ 1 [2, 3] (by decide) (by decide)
      ⟨⟨1, some "t", false, none⟩, by decide⟩).1⟩

end SietchFaces
